import Mathlib

/-!
Verification of the batch embedding generation pipeline in
`data_pipeline/1_generate_embeddings_OpenRouter.py`.

The embedding is shallow: the per-batch API interaction of `get_embeddings`
is modelled as a function of an oracle assigning to each attempt index the
outcome of that attempt's network request, and the driver loop is modelled
as a function of an oracle assigning to each batch index the result that
`get_embeddings` produced for it.  Floating point numbers are modelled by
rationals; the L2 norm of a vector is passed as an explicit argument
constrained by the decidable predicate `IsL2Norm` (nonnegative, square equal
to the sum of squares), which characterises it exactly.
-/

namespace EmbedPipeline

/-! Batch Splitter.

The source iterates `range(0, total_reviews, BATCH_SIZE)` and slices
`texts[i:i+BATCH_SIZE]`, which partitions the list into contiguous chunks of
size `B`, the last possibly shorter. -/

/-- Contiguous chunks of size `B` (last possibly shorter), as produced by
`texts[i:i+BATCH_SIZE]` over `range(0, total, BATCH_SIZE)`.  `B = 0` would be
a configuration error in the source (an invalid `range` step); it yields
no batches here. -/
def splitBatches (B : Nat) (l : List α) : List (List α) :=
  match B, l with
  | _, [] => []
  | 0, _ => []
  | (b+1), (x :: xs) => ((x :: xs).take (b+1)) :: splitBatches (b+1) ((x :: xs).drop (b+1))
  termination_by l.length
  decreasing_by
    simp only [List.length_drop, List.length_cons]
    omega

theorem splitBatches_nil (B : Nat) : splitBatches B ([] : List α) = [] := by
  cases B <;> simp [splitBatches]

theorem splitBatches_cons (b : Nat) (x : α) (xs : List α) :
    splitBatches (b+1) (x :: xs) =
      ((x :: xs).take (b+1)) :: splitBatches (b+1) ((x :: xs).drop (b+1)) := by
  simp [splitBatches]

/-- The chunks concatenate back to the input list. -/
theorem splitBatches_flatten (b : Nat) (l : List α) :
    (splitBatches (b+1) l).flatten = l := by
  suffices H : ∀ n (l : List α), l.length < n → (splitBatches (b+1) l).flatten = l from
    H (l.length + 1) l (by omega)
  intro n
  induction n with
  | zero => intro l h; omega
  | succ n ih =>
    intro l hlt
    match l with
    | [] => simp [splitBatches_nil]
    | x :: xs =>
      rw [splitBatches_cons]
      have hrec := ih ((x :: xs).drop (b+1))
        (by simp only [List.length_drop, List.length_cons]
            simp only [List.length_cons] at hlt
            omega)
      simp only [List.flatten_cons, hrec, List.take_append_drop]

/-- Number of chunks is `⌈N / B⌉`, computed as `(N + B - 1) / B`. -/
theorem splitBatches_length (b : Nat) (l : List α) :
    (splitBatches (b+1) l).length = (l.length + (b+1) - 1) / (b+1) := by
  suffices H : ∀ n (l : List α), l.length < n →
      (splitBatches (b+1) l).length = (l.length + (b+1) - 1) / (b+1) from
    H (l.length + 1) l (by omega)
  intro n
  induction n with
  | zero => intro l h; omega
  | succ n ih =>
    intro l hlt
    match l with
    | [] =>
      simp only [splitBatches_nil, List.length_nil, Nat.zero_add]
      rw [Nat.div_eq_of_lt (by omega)]
    | x :: xs =>
      simp only [List.length_cons] at hlt
      rw [splitBatches_cons]
      simp only [List.length_cons]
      rcases Nat.lt_or_ge (xs.length + 1) (b + 1) with h | h
      · rw [List.drop_eq_nil_of_le (by simp only [List.length_cons]; omega),
          splitBatches_nil]
        have h1 : xs.length + 1 + (b + 1) - 1 = xs.length + (b + 1) := by omega
        rw [h1, Nat.add_div_right _ (by omega), Nat.div_eq_of_lt (by omega)]
        rfl
      · have hrec := ih ((x :: xs).drop (b+1))
          (by simp only [List.length_drop, List.length_cons]; omega)
        rw [hrec]
        simp only [List.length_drop, List.length_cons]
        have h1 : xs.length + 1 - (b + 1) + (b + 1) - 1 = xs.length := by omega
        have h2 : xs.length + 1 + (b + 1) - 1 = xs.length + (b + 1) := by omega
        rw [h1, h2, Nat.add_div_right _ (by omega)]

/-- Every chunk except possibly the last has size exactly `B`. -/
theorem splitBatches_dropLast_length (b : Nat) (l : List α) :
    ∀ c ∈ (splitBatches (b+1) l).dropLast, c.length = b + 1 := by
  suffices H : ∀ n (l : List α), l.length < n →
      ∀ c ∈ (splitBatches (b+1) l).dropLast, c.length = b + 1 from
    H (l.length + 1) l (by omega)
  intro n
  induction n with
  | zero => intro l h; omega
  | succ n ih =>
    intro l hlt c hc
    match l with
    | [] => rw [splitBatches_nil] at hc; simp at hc
    | x :: xs =>
      simp only [List.length_cons] at hlt
      rw [splitBatches_cons] at hc
      rcases le_or_lt (xs.length + 1) (b + 1) with h | h
      · rw [List.drop_eq_nil_of_le (by simp only [List.length_cons]; omega),
          splitBatches_nil] at hc
        simp at hc
      · have hdne : (x :: xs).drop (b+1) ≠ [] := by
          simp only [ne_eq, List.drop_eq_nil_iff, List.length_cons]
          omega
        have hne : splitBatches (b+1) ((x :: xs).drop (b+1)) ≠ [] := by
          obtain ⟨y, ys, hys⟩ := List.exists_cons_of_ne_nil hdne
          rw [hys, splitBatches_cons]
          simp
        rw [List.dropLast_cons_of_ne_nil hne] at hc
        rcases List.mem_cons.mp hc with rfl | hc
        · simp only [List.length_take, List.length_cons]
          omega
        · exact ih ((x :: xs).drop (b+1))
            (by simp only [List.length_drop, List.length_cons]; omega) c hc

/-- The last chunk has size `N mod B` when `B` does not divide `N`, else `B`. -/
theorem splitBatches_getLast_length (b : Nat) (l : List α) (hl : l ≠ []) :
    (splitBatches (b+1) l).getLast?.map List.length =
      some (if l.length % (b+1) = 0 then b + 1 else l.length % (b+1)) := by
  suffices H : ∀ n (l : List α), l.length < n → l ≠ [] →
      (splitBatches (b+1) l).getLast?.map List.length =
        some (if l.length % (b+1) = 0 then b + 1 else l.length % (b+1)) from
    H (l.length + 1) l (by omega) hl
  intro n
  induction n with
  | zero => intro l h; omega
  | succ n ih =>
    intro l hlt hl
    match l with
    | [] => exact absurd rfl hl
    | x :: xs =>
      simp only [List.length_cons] at hlt
      rw [splitBatches_cons]
      rcases le_or_lt (xs.length + 1) (b + 1) with h | h
      · rw [List.drop_eq_nil_of_le (by simp only [List.length_cons]; omega),
          splitBatches_nil]
        simp only [List.getLast?_singleton, Option.map_some', List.length_take,
          List.length_cons]
        by_cases hx : xs.length + 1 = b + 1
        · rw [if_pos (by rw [hx, Nat.mod_self])]
          congr 1
          omega
        · rw [if_neg (by rw [Nat.mod_eq_of_lt (by omega)]; omega)]
          rw [Nat.mod_eq_of_lt (by omega)]
          congr 1
          omega
      · have hdne : (x :: xs).drop (b+1) ≠ [] := by
          simp only [ne_eq, List.drop_eq_nil_iff, List.length_cons, not_le]
          omega
        have hrec := ih ((x :: xs).drop (b+1))
          (by simp only [List.length_drop, List.length_cons]; omega) hdne
        have hne : splitBatches (b+1) ((x :: xs).drop (b+1)) ≠ [] := by
          obtain ⟨y, ys, hys⟩ := List.exists_cons_of_ne_nil hdne
          rw [hys, splitBatches_cons]
          simp
        obtain ⟨z, zs, hzs⟩ := List.exists_cons_of_ne_nil hne
        rw [hzs, List.getLast?_cons_cons, ← hzs, hrec]
        congr 1
        simp only [List.length_drop, List.length_cons]
        have hmod : (xs.length + 1 - (b + 1)) % (b+1) = (xs.length + 1) % (b+1) := by
          conv_rhs => rw [← Nat.sub_add_cancel (by omega : b + 1 ≤ xs.length + 1)]
          rw [Nat.add_mod_right]
        rw [hmod]

/-! Embedding Client.

`get_embeddings(texts, model, retries=3)` loops `for attempt in range(retries)`,
issuing one `requests.post` per iteration.  A 200 response whose JSON carries
no error field returns the extracted embeddings; a 200 response with an error
payload raises inside the `try`, is caught, and sleeps 2; a 429 sleeps
`2 ** attempt`; any other status sleeps 2; an exception from the request
itself sleeps 2.  After the loop, `raise Exception("Max retries reached")`.
The network is modelled by an oracle giving each attempt's outcome. -/

/-- Body of a 200 response: either an error payload inside the JSON envelope
or the list of embeddings extracted from `result['data']`. -/
inductive ResponseBody where
  | errorPayload (msg : String)
  | dataPayload (data : List (List ℚ))
deriving DecidableEq

/-- Outcome of one `requests.post` attempt. -/
inductive ApiResponse where
  | httpOk (body : ResponseBody)
  | httpRateLimited
  | httpError (code : Nat) (text : String)
  | requestException (msg : String)
deriving DecidableEq

/-- Result of `get_embeddings` as the caller observes it: the returned
embeddings, or the exception that propagates out. -/
inductive EmbResult where
  | ok (embs : List (List ℚ))
  | error (msg : String)
deriving DecidableEq

/-- One run of `get_embeddings`: its observable result, the number of
network requests issued, and the sequence of sleep durations. -/
structure ClientRun where
  result : EmbResult
  requests : Nat
  delays : List Nat
deriving DecidableEq

/-- The retry loop of `get_embeddings`, one constructor case per branch of
the source: 200-with-data returns, 200-with-error-payload and exceptions and
other statuses sleep 2, 429 sleeps `2 ** attempt`. -/
def getEmbeddingsAux (oracle : Nat → ApiResponse) :
    Nat → Nat → Nat → List Nat → ClientRun
  | _, 0, reqs, delays => ⟨.error "Max retries reached", reqs, delays⟩
  | attempt, remaining+1, reqs, delays =>
    match oracle attempt with
    | .httpOk (.dataPayload d) => ⟨.ok d, reqs + 1, delays⟩
    | .httpOk (.errorPayload _) =>
        getEmbeddingsAux oracle (attempt+1) remaining (reqs+1) (delays ++ [2])
    | .httpRateLimited =>
        getEmbeddingsAux oracle (attempt+1) remaining (reqs+1) (delays ++ [2 ^ attempt])
    | .httpError _ _ =>
        getEmbeddingsAux oracle (attempt+1) remaining (reqs+1) (delays ++ [2])
    | .requestException _ =>
        getEmbeddingsAux oracle (attempt+1) remaining (reqs+1) (delays ++ [2])

/-- The function `get_embeddings(texts, model, retries)` under the attempt oracle. -/
def get_embeddings (oracle : Nat → ApiResponse) (retries : Nat) : ClientRun :=
  getEmbeddingsAux oracle 0 retries 0 []

/-- An attempt fails unless it is a 200 response with a data payload. -/
def attemptFails : ApiResponse → Bool
  | .httpOk (.dataPayload _) => false
  | _ => true

theorem getEmbeddingsAux_allFail (oracle : Nat → ApiResponse) :
    ∀ (remaining attempt reqs : Nat) (delays : List Nat),
      (∀ a, attempt ≤ a → a < attempt + remaining → attemptFails (oracle a)) →
      (getEmbeddingsAux oracle attempt remaining reqs delays).result =
          .error "Max retries reached" ∧
        (getEmbeddingsAux oracle attempt remaining reqs delays).requests =
          reqs + remaining := by
  intro remaining
  induction remaining with
  | zero => intro attempt reqs delays _; exact ⟨rfl, rfl⟩
  | succ m ih =>
    intro attempt reqs delays hfail
    have hthis : attemptFails (oracle attempt) := hfail attempt le_rfl (by omega)
    have hnext : ∀ a, attempt + 1 ≤ a → a < attempt + 1 + m → attemptFails (oracle a) :=
      fun a h1 h2 => hfail a (by omega) (by omega)
    match hor : oracle attempt with
    | .httpOk (.dataPayload d) => simp [attemptFails, hor] at hthis
    | .httpOk (.errorPayload m') =>
        have := ih (attempt+1) (reqs+1) (delays ++ [2]) hnext
        simpa [getEmbeddingsAux, hor, Nat.add_assoc, Nat.add_comm 1 m] using this
    | .httpRateLimited =>
        have := ih (attempt+1) (reqs+1) (delays ++ [2 ^ attempt]) hnext
        simpa [getEmbeddingsAux, hor, Nat.add_assoc, Nat.add_comm 1 m] using this
    | .httpError c t =>
        have := ih (attempt+1) (reqs+1) (delays ++ [2]) hnext
        simpa [getEmbeddingsAux, hor, Nat.add_assoc, Nat.add_comm 1 m] using this
    | .requestException m' =>
        have := ih (attempt+1) (reqs+1) (delays ++ [2]) hnext
        simpa [getEmbeddingsAux, hor, Nat.add_assoc, Nat.add_comm 1 m] using this

theorem getEmbeddingsAux_ok (oracle : Nat → ApiResponse) :
    ∀ (remaining attempt reqs : Nat) (delays : List Nat) (embs : List (List ℚ)),
      (getEmbeddingsAux oracle attempt remaining reqs delays).result = .ok embs →
      ∃ a, attempt ≤ a ∧ a < attempt + remaining ∧
        oracle a = .httpOk (.dataPayload embs) := by
  intro remaining
  induction remaining with
  | zero =>
    intro attempt reqs delays embs h
    simp [getEmbeddingsAux] at h
  | succ m ih =>
    intro attempt reqs delays embs h
    match hor : oracle attempt with
    | .httpOk (.dataPayload d) =>
        simp only [getEmbeddingsAux, hor] at h
        obtain rfl : d = embs := EmbResult.ok.inj h
        exact ⟨attempt, le_rfl, by omega, hor⟩
    | .httpOk (.errorPayload m') =>
        simp only [getEmbeddingsAux, hor] at h
        obtain ⟨a, h1, h2, h3⟩ := ih (attempt+1) (reqs+1) (delays ++ [2]) embs h
        exact ⟨a, by omega, by omega, h3⟩
    | .httpRateLimited =>
        simp only [getEmbeddingsAux, hor] at h
        obtain ⟨a, h1, h2, h3⟩ := ih (attempt+1) (reqs+1) (delays ++ [2 ^ attempt]) embs h
        exact ⟨a, by omega, by omega, h3⟩
    | .httpError c t =>
        simp only [getEmbeddingsAux, hor] at h
        obtain ⟨a, h1, h2, h3⟩ := ih (attempt+1) (reqs+1) (delays ++ [2]) embs h
        exact ⟨a, by omega, by omega, h3⟩
    | .requestException m' =>
        simp only [getEmbeddingsAux, hor] at h
        obtain ⟨a, h1, h2, h3⟩ := ih (attempt+1) (reqs+1) (delays ++ [2]) embs h
        exact ⟨a, by omega, by omega, h3⟩

/-! Pipeline Driver.

The processing loop iterates over batch indices; per batch it calls
`get_embeddings` inside a `try`.  On success it `extend`s `embeddings_list`;
on any exception it increments `failed_batches` and `break`s once
`failed_batches > 5`.  After the loop: `exit(1)` when `embeddings_list` is
empty, else it normalizes and saves whatever was collected.  The per-batch
results (the returned embeddings, or the exception the driver catches) are
given by a batch oracle. -/

/-- Loop state at exit: the collected vectors, the failure counter, and the
number of batches dispatched (i.e. for which `get_embeddings` was called). -/
structure LoopState where
  embeddings_list : List (List ℚ)
  failed_batches : Nat
  dispatched : Nat
deriving DecidableEq

/-- The batch loop over a list of batch indices.  `maxFailed` is the literal
5 in `if failed_batches > 5: break`. -/
def batchLoop (oracle : Nat → EmbResult) (maxFailed : Nat) :
    List Nat → List (List ℚ) → Nat → Nat → LoopState
  | [], emb, failed, disp => ⟨emb, failed, disp⟩
  | i :: rest, emb, failed, disp =>
    match oracle i with
    | .ok embs => batchLoop oracle maxFailed rest (emb ++ embs) failed (disp + 1)
    | .error _ =>
      if failed + 1 > maxFailed then ⟨emb, failed + 1, disp + 1⟩
      else batchLoop oracle maxFailed rest emb (failed + 1) (disp + 1)

/-- The full loop over batches `0, ..., numBatches - 1`. -/
def runDriver (oracle : Nat → EmbResult) (maxFailed numBatches : Nat) : LoopState :=
  batchLoop oracle maxFailed (List.range numBatches) [] 0 0

/-- Outcome after the loop: `exit(1)` if nothing was embedded, else the run
proceeds to normalize and save the collected state. -/
inductive RunOutcome where
  | noEmbeddings
  | completed (st : LoopState)
deriving DecidableEq

/-- After the loop, `if len(embeddings_list) == 0: exit(1)`; otherwise the run
continues to the save block. -/
def driverOutcome (oracle : Nat → EmbResult) (maxFailed numBatches : Nat) : RunOutcome :=
  let st := runDriver oracle maxFailed numBatches
  if st.embeddings_list = [] then .noEmbeddings else .completed st

/-- Whether a batch result is a failure (an exception caught by the driver). -/
def batchFails : EmbResult → Bool
  | .ok _ => false
  | .error _ => true

/-- Number of failing batches among a list of batch indices. -/
def errCountL (oracle : Nat → EmbResult) (is : List Nat) : Nat :=
  (is.filter fun i => batchFails (oracle i)).length

/-- Number of failing batches among indices `0, ..., k-1`. -/
def errCount (oracle : Nat → EmbResult) (k : Nat) : Nat :=
  errCountL oracle (List.range k)

/-- Concatenation, in batch order, of the vectors of the successful batches
among a list of batch indices. -/
def okVectorsL (oracle : Nat → EmbResult) (is : List Nat) : List (List ℚ) :=
  (is.filterMap fun i =>
    match oracle i with
    | .ok embs => some embs
    | .error _ => none).flatten

/-- Concatenation, in batch order, of the vectors of the successful batches
among indices `0, ..., k-1`. -/
def okVectors (oracle : Nat → EmbResult) (k : Nat) : List (List ℚ) :=
  okVectorsL oracle (List.range k)

theorem errCountL_nil (oracle : Nat → EmbResult) : errCountL oracle [] = 0 := rfl

theorem errCountL_cons_ok (oracle : Nat → EmbResult) (i : Nat) (is : List Nat)
    (h : batchFails (oracle i) = false) :
    errCountL oracle (i :: is) = errCountL oracle is := by
  unfold errCountL
  rw [List.filter_cons, h]
  simp

theorem errCountL_cons_err (oracle : Nat → EmbResult) (i : Nat) (is : List Nat)
    (h : batchFails (oracle i) = true) :
    errCountL oracle (i :: is) = errCountL oracle is + 1 := by
  unfold errCountL
  rw [List.filter_cons, h]
  simp [Nat.add_comm]

theorem okVectorsL_nil (oracle : Nat → EmbResult) : okVectorsL oracle [] = [] := rfl

theorem okVectorsL_cons_ok (oracle : Nat → EmbResult) (i : Nat) (is : List Nat)
    (embs : List (List ℚ)) (h : oracle i = .ok embs) :
    okVectorsL oracle (i :: is) = embs ++ okVectorsL oracle is := by
  unfold okVectorsL
  rw [List.filterMap_cons, h]
  simp

theorem okVectorsL_cons_error (oracle : Nat → EmbResult) (i : Nat) (is : List Nat)
    (msg : String) (h : oracle i = .error msg) :
    okVectorsL oracle (i :: is) = okVectorsL oracle is := by
  unfold okVectorsL
  rw [List.filterMap_cons, h]

/-- Characterization of the batch loop: it processes a prefix `p` of the
index list, returning the concatenated successful vectors and the failure
count over `p`; before each processed index the failure count was at most
`maxFailed`; and the suffix `q` is nonempty only when the loop broke with
the count at exactly `maxFailed + 1`. -/
theorem batchLoop_spec (oracle : Nat → EmbResult) (maxFailed : Nat) :
    ∀ (is : List Nat) (emb : List (List ℚ)) (failed disp : Nat),
      failed ≤ maxFailed →
      ∃ p q, is = p ++ q ∧
        batchLoop oracle maxFailed is emb failed disp =
          ⟨emb ++ okVectorsL oracle p, failed + errCountL oracle p, disp + p.length⟩ ∧
        (∀ k, k < p.length → failed + errCountL oracle (p.take k) ≤ maxFailed) ∧
        (q ≠ [] → failed + errCountL oracle p = maxFailed + 1) := by
  intro is
  induction is with
  | nil =>
    intro emb failed disp hf
    exact ⟨[], [], rfl, by simp [batchLoop, errCountL_nil, okVectorsL_nil], by simp,
      by simp⟩
  | cons i rest ih =>
    intro emb failed disp hf
    match hor : oracle i with
    | .ok embs =>
      have hfail : batchFails (oracle i) = false := by rw [hor]; rfl
      obtain ⟨p, q, hpq, hres, hleg, hstop⟩ := ih (emb ++ embs) failed (disp + 1) hf
      refine ⟨i :: p, q, by simp [hpq], ?_, ?_, ?_⟩
      · rw [show batchLoop oracle maxFailed (i :: rest) emb failed disp =
            batchLoop oracle maxFailed rest (emb ++ embs) failed (disp + 1) by
          simp [batchLoop, hor]]
        rw [hres, okVectorsL_cons_ok oracle i p embs hor, errCountL_cons_ok oracle i p hfail]
        congr 1 <;> first | rfl | omega | (simp [List.append_assoc]; try omega)
      · intro k hk
        match k with
        | 0 => simpa [errCountL_nil] using hf
        | k+1 =>
          have := hleg k (by simpa using hk)
          rw [List.take_succ_cons, errCountL_cons_ok oracle i _ hfail]
          exact this
      · intro hq
        have := hstop hq
        rw [errCountL_cons_ok oracle i p hfail]
        exact this
    | .error msg =>
      have hfail : batchFails (oracle i) = true := by rw [hor]; rfl
      by_cases hbreak : failed + 1 > maxFailed
      · refine ⟨[i], rest, rfl, ?_, ?_, ?_⟩
        · rw [show batchLoop oracle maxFailed (i :: rest) emb failed disp =
              ⟨emb, failed + 1, disp + 1⟩ by simp [batchLoop, hor, hbreak]]
          rw [show ([i] : List Nat) = i :: [] from rfl,
            okVectorsL_cons_error oracle i [] msg hor, okVectorsL_nil,
            errCountL_cons_err oracle i [] hfail, errCountL_nil]
          congr 1 <;> first | rfl | omega | (simp [List.append_assoc]; try omega)
        · intro k hk
          match k with
          | 0 => simpa [errCountL_nil] using hf
        · intro _
          rw [show ([i] : List Nat) = i :: [] from rfl,
            errCountL_cons_err oracle i [] hfail, errCountL_nil]
          omega
      · obtain ⟨p, q, hpq, hres, hleg, hstop⟩ := ih emb (failed + 1) (disp + 1) (by omega)
        refine ⟨i :: p, q, by simp [hpq], ?_, ?_, ?_⟩
        · rw [show batchLoop oracle maxFailed (i :: rest) emb failed disp =
              batchLoop oracle maxFailed rest emb (failed + 1) (disp + 1) by
            simp [batchLoop, hor, hbreak]]
          rw [hres, okVectorsL_cons_error oracle i p msg hor,
            errCountL_cons_err oracle i p hfail]
          congr 1 <;> first | rfl | omega | (simp [List.append_assoc]; try omega)
        · intro k hk
          match k with
          | 0 => simpa [errCountL_nil] using hf
          | k+1 =>
            have := hleg k (by simpa using hk)
            rw [List.take_succ_cons, errCountL_cons_err oracle i _ hfail]
            omega
        · intro hq
          have := hstop hq
          rw [errCountL_cons_err oracle i p hfail]
          omega

/-- The driver loop, started from the initial state of the source
(`embeddings_list = []`, `failed_batches = 0`): the final state is determined
by the dispatched prefix, the failure count stayed within the threshold
before every dispatched batch, and dispatch stopped early only because the
count reached `maxFailed + 1`. -/
theorem runDriver_spec (oracle : Nat → EmbResult) (maxFailed n : Nat) :
    (runDriver oracle maxFailed n).dispatched ≤ n ∧
    runDriver oracle maxFailed n =
      ⟨okVectors oracle (runDriver oracle maxFailed n).dispatched,
       errCount oracle (runDriver oracle maxFailed n).dispatched,
       (runDriver oracle maxFailed n).dispatched⟩ ∧
    (∀ k, k < (runDriver oracle maxFailed n).dispatched → errCount oracle k ≤ maxFailed) ∧
    ((runDriver oracle maxFailed n).dispatched < n →
      errCount oracle (runDriver oracle maxFailed n).dispatched = maxFailed + 1) := by
  obtain ⟨p, q, hpq, hres, hleg, hstop⟩ :=
    batchLoop_spec oracle maxFailed (List.range n) [] 0 0 (Nat.zero_le maxFailed)
  have hres' : runDriver oracle maxFailed n =
      ⟨okVectorsL oracle p, errCountL oracle p, p.length⟩ := by
    rw [runDriver, hres]
    simp
  have hlen : p.length ≤ n := by
    have h := congrArg List.length hpq
    rw [List.length_range, List.length_append] at h
    omega
  have hp : List.range p.length = p := by
    have h1 : (List.range n).take p.length = p := by
      rw [hpq]
      exact List.take_left p q
    rwa [List.take_range, Nat.min_eq_left hlen] at h1
  have hdisp : (runDriver oracle maxFailed n).dispatched = p.length := by rw [hres']
  refine ⟨?_, ?_, ?_, ?_⟩
  · rw [hdisp]
    exact hlen
  · rw [hres']
    show LoopState.mk (okVectorsL oracle p) (errCountL oracle p) p.length =
      LoopState.mk (okVectors oracle p.length) (errCount oracle p.length) p.length
    unfold okVectors errCount
    rw [hp]
  · intro k hk
    rw [hdisp] at hk
    have hlegk := hleg k hk
    unfold errCount
    have htk : List.range k = p.take k := by
      rw [← hp, List.take_range, Nat.min_eq_left (le_of_lt hk)]
    rw [htk]
    simpa using hlegk
  · intro hlt
    rw [hdisp] at hlt
    have hq : q ≠ [] := by
      intro h0
      have h := congrArg List.length hpq
      rw [h0, List.append_nil, List.length_range] at h
      omega
    have hs := hstop hq
    unfold errCount
    rw [hdisp, hp]
    simpa using hs

/-- When every attempt in the window is rate limited, the client sleeps
`2 ** attempt` after each attempt and exhausts its retries. -/
theorem getEmbeddingsAux_rateLimited (oracle : Nat → ApiResponse) :
    ∀ (remaining attempt reqs : Nat) (delays : List Nat),
      (∀ a, attempt ≤ a → a < attempt + remaining → oracle a = .httpRateLimited) →
      getEmbeddingsAux oracle attempt remaining reqs delays =
        ⟨.error "Max retries reached", reqs + remaining,
          delays ++ (List.range' attempt remaining).map (fun a => 2 ^ a)⟩ := by
  intro remaining
  induction remaining with
  | zero =>
    intro attempt reqs delays _
    simp [getEmbeddingsAux]
  | succ m ih =>
    intro attempt reqs delays h
    have h0 : oracle attempt = .httpRateLimited := h attempt le_rfl (by omega)
    rw [show getEmbeddingsAux oracle attempt (m+1) reqs delays =
        getEmbeddingsAux oracle (attempt+1) m (reqs+1) (delays ++ [2 ^ attempt]) by
      simp [getEmbeddingsAux, h0]]
    rw [ih (attempt+1) (reqs+1) _ (fun a ha1 ha2 => h a (by omega) (by omega))]
    rw [List.range'_succ, List.map_cons]
    congr 1
    · omega
    · simp

/-! Normalizer.

The source computes `norm = np.linalg.norm(embeddings, axis=1, keepdims=True)`,
replaces the entries that are exactly zero (`norm[norm == 0] = 1e-10`) and
divides row-wise.  A row's norm is modelled as an explicit argument
constrained by `IsL2Norm`, which pins it down exactly (nonnegative, square
equal to the sum of squares), avoiding an irrational square root in the
definition. -/

/-- The literal `1e-10` used in `norm[norm == 0] = 1e-10`. -/
def eps : ℚ := 1 / 10 ^ 10

/-- Sum of squares of the components of a row. -/
def sumSq (v : List ℚ) : ℚ := (v.map fun x => x * x).sum

/-- States that `n` is the Euclidean norm of `v`. -/
def IsL2Norm (v : List ℚ) (n : ℚ) : Prop := 0 ≤ n ∧ n * n = sumSq v

instance (v : List ℚ) (n : ℚ) : Decidable (IsL2Norm v n) :=
  inferInstanceAs (Decidable (_ ∧ _))

/-- The divisor actually used for a row of norm `n`: `norm[norm == 0] = 1e-10`
replaces only the entries that are exactly zero. -/
def normDivisor (n : ℚ) : ℚ := if n = 0 then eps else n

/-- One row of `embeddings / norm`. -/
def l2normalizeRow (v : List ℚ) (n : ℚ) : List ℚ := v.map fun x => x / normDivisor n

/-- Modelled from the spec's words (§4.4), for comparison with the source's
`l2normalizeRow`: output `v / ε` whenever `‖v‖ ≤ ε`, else `v / ‖v‖`. -/
def l2normalizeRowSpec (v : List ℚ) (n : ℚ) : List ℚ :=
  v.map fun x => x / (if n ≤ eps then eps else n)

theorem sumSq_nil : sumSq [] = 0 := rfl

theorem sumSq_cons (x : ℚ) (xs : List ℚ) : sumSq (x :: xs) = x * x + sumSq xs := by
  simp [sumSq]

theorem sumSq_nonneg : ∀ v : List ℚ, 0 ≤ sumSq v
  | [] => le_of_eq rfl
  | x :: xs => by
    rw [sumSq_cons]
    exact add_nonneg (mul_self_nonneg x) (sumSq_nonneg xs)

theorem sumSq_eq_zero_iff : ∀ v : List ℚ, sumSq v = 0 ↔ ∀ x ∈ v, x = 0
  | [] => by simp [sumSq_nil]
  | x :: xs => by
    rw [sumSq_cons]
    constructor
    · intro h y hy
      have hx2 : 0 ≤ x * x := mul_self_nonneg x
      have hxs : 0 ≤ sumSq xs := sumSq_nonneg xs
      have hx : x * x = 0 := by linarith
      have hs : sumSq xs = 0 := by linarith
      rcases List.mem_cons.mp hy with rfl | hy
      · exact mul_self_eq_zero.mp hx
      · exact (sumSq_eq_zero_iff xs).mp hs y hy
    · intro h
      have hx : x = 0 := h x (List.mem_cons_self x xs)
      have hs : sumSq xs = 0 :=
        (sumSq_eq_zero_iff xs).mpr fun y hy => h y (List.mem_cons_of_mem x hy)
      rw [hx, hs]
      ring

/-! Claims. -/

/-- Claim C8: for N records and positive batch size B, the splitter emits
exactly ceil(N/B) contiguous, order-preserving batches whose sizes sum to N,
each of size B except possibly the last (of size N mod B, or B when B
divides N); empty input produces zero batches. -/
theorem C8_batch_partition {α : Type} (B : Nat) (hB : 0 < B) (l : List α) :
    (splitBatches B l).length = (l.length + B - 1) / B ∧
    (splitBatches B l).flatten = l ∧
    ((splitBatches B l).map List.length).sum = l.length ∧
    (∀ c ∈ (splitBatches B l).dropLast, c.length = B) ∧
    (l ≠ [] → (splitBatches B l).getLast?.map List.length =
      some (if l.length % B = 0 then B else l.length % B)) ∧
    splitBatches B ([] : List α) = [] := by
  obtain ⟨b, rfl⟩ : ∃ b, B = b + 1 := ⟨B - 1, by omega⟩
  refine ⟨splitBatches_length b l, splitBatches_flatten b l, ?_,
    splitBatches_dropLast_length b l, fun hl => splitBatches_getLast_length b l hl,
    splitBatches_nil _⟩
  rw [← List.length_flatten, splitBatches_flatten b l]

/-- Witness for C8: 45 records with batch size 20 (Scenario A of the spec):
3 batches, sizes summing to 45, all of size 20 but the last of size 5. -/
theorem C8_batch_partition_witness :
    (0 < 20 ∧ (List.range 45) ≠ []) ∧
    (splitBatches 20 (List.range 45)).length = (45 + 20 - 1) / 20 ∧
    (splitBatches 20 (List.range 45)).flatten = List.range 45 ∧
    ((splitBatches 20 (List.range 45)).map List.length).sum = 45 ∧
    (∀ c ∈ (splitBatches 20 (List.range 45)).dropLast, c.length = 20) ∧
    (splitBatches 20 (List.range 45)).getLast?.map List.length =
      some (if 45 % 20 = 0 then 20 else 45 % 20) := by
  have h := C8_batch_partition 20 (by omega) (List.range 45)
  exact ⟨⟨by omega, by decide⟩, by simpa using h.1, h.2.1, by simpa using h.2.2.1,
    h.2.2.2.1, by simpa using h.2.2.2.2.1 (by decide)⟩

/-- Claim C6: a batch that fails on every attempt is attempted exactly
`retries` times (one network request per attempt), not more and not fewer,
before the batch is recorded as failed. -/
theorem C6_retry_bound (oracle : Nat → ApiResponse) (retries : Nat)
    (h : ∀ a, a < retries → attemptFails (oracle a)) :
    (get_embeddings oracle retries).requests = retries ∧
    (get_embeddings oracle retries).result = EmbResult.error "Max retries reached" := by
  have hall := getEmbeddingsAux_allFail oracle retries 0 0 []
    (fun a h1 h2 => h a (by omega))
  exact ⟨by simpa using hall.2, hall.1⟩

/-- Witness for C6: an oracle answering 500 on every attempt; with 3 retries,
exactly 3 requests are made and the batch fails. -/
theorem C6_retry_bound_witness :
    (get_embeddings (fun _ => ApiResponse.httpError 500 "server error") 3).requests = 3 ∧
    (get_embeddings (fun _ => ApiResponse.httpError 500 "server error") 3).result =
      EmbResult.error "Max retries reached" :=
  C6_retry_bound _ 3 (by decide)

/-- Claim C7: when every attempt is rate limited under 3 retries, the client
sleeps `2 ** attempt` after each rate-limited attempt, giving the delay
sequence [1, 2, 4] for attempts 0, 1, 2, before the batch fails. -/
theorem C7_backoff (oracle : Nat → ApiResponse)
    (h : ∀ a, a < 3 → oracle a = ApiResponse.httpRateLimited) :
    get_embeddings oracle 3 =
      ⟨EmbResult.error "Max retries reached", 3, [1, 2, 4]⟩ := by
  have hrl := getEmbeddingsAux_rateLimited oracle 3 0 0 []
    (fun a h1 h2 => h a (by omega))
  rw [get_embeddings, hrl]
  norm_num [List.range']

/-- Witness for C7: the constant rate-limited oracle. -/
theorem C7_backoff_witness :
    get_embeddings (fun _ => ApiResponse.httpRateLimited) 3 =
      ⟨EmbResult.error "Max retries reached", 3, [1, 2, 4]⟩ :=
  C7_backoff _ (fun a _ => rfl)

/-- Claim C4 (amended): after all retries fail, `get_embeddings` raises the
constant `Exception("Max retries reached")` — observed by the driver as a
failure, but not a value carrying the last observed error. -/
theorem C4_exhausted_error (oracle : Nat → ApiResponse) (retries : Nat)
    (h : ∀ a, a < retries → attemptFails (oracle a)) :
    (get_embeddings oracle retries).result = EmbResult.error "Max retries reached" :=
  (getEmbeddingsAux_allFail oracle retries 0 0 [] (fun a h1 h2 => h a (by omega))).1

/-- Witness for C4 (amended), with an error payload inside a 200 response. -/
theorem C4_exhausted_error_witness :
    (get_embeddings (fun _ => ApiResponse.httpOk (ResponseBody.errorPayload "quota")) 3).result =
      EmbResult.error "Max retries reached" :=
  C4_exhausted_error _ 3 (by decide)

/-- Counterexample to C4 as stated: every attempt fails with the observed
error "connection reset", yet the reported failure carries the fixed message
"Max retries reached", not the last observed error. -/
theorem C4_counterexample :
    (get_embeddings (fun _ => ApiResponse.requestException "connection reset") 3).result =
      EmbResult.error "Max retries reached" ∧
    (get_embeddings (fun _ => ApiResponse.requestException "connection reset") 3).result ≠
      EmbResult.error "connection reset" := by
  exact ⟨rfl, by decide⟩

/-- Claim C9: when the client succeeds, the returned vectors are exactly one
response's data payload — under the endpoint contract (one embedding per
input, in order, each of dimension D) this is `len(batch)` vectors in input
order, each of dimension D. -/
theorem C9_success_shape (oracle : Nat → ApiResponse) (retries batchLen D : Nat)
    (hcontract : ∀ a d, a < retries → oracle a = .httpOk (.dataPayload d) →
      d.length = batchLen ∧ ∀ e ∈ d, e.length = D) :
    ∀ embs, (get_embeddings oracle retries).result = EmbResult.ok embs →
      embs.length = batchLen ∧ (∀ e ∈ embs, e.length = D) ∧
      ∃ a, a < retries ∧ oracle a = .httpOk (.dataPayload embs) := by
  intro embs hok
  obtain ⟨a, ha0, ha1, ha2⟩ := getEmbeddingsAux_ok oracle retries 0 0 [] embs hok
  obtain ⟨hl, hd⟩ := hcontract a embs (by omega) ha2
  exact ⟨hl, hd, a, by omega, ha2⟩

/-- Witness for C9: a single attempt returning two 2-dimensional vectors. -/
theorem C9_success_shape_witness :
    ([[(1 : ℚ), 2], [3, 4]] : List (List ℚ)).length = 2 ∧
    (∀ e ∈ ([[(1 : ℚ), 2], [3, 4]] : List (List ℚ)), e.length = 2) ∧
    ∃ a, a < 1 ∧
      (fun _ => ApiResponse.httpOk (ResponseBody.dataPayload [[(1 : ℚ), 2], [3, 4]])) a =
        ApiResponse.httpOk (ResponseBody.dataPayload [[(1 : ℚ), 2], [3, 4]]) :=
  C9_success_shape _ 1 2 2
    (by
      intro a d _ hd
      simp only [ApiResponse.httpOk.injEq, ResponseBody.dataPayload.injEq] at hd
      subst hd
      exact ⟨rfl, by decide⟩)
    [[(1 : ℚ), 2], [3, 4]] rfl

/-- Claim C1 (amended): once the failure count exceeds the threshold the loop
stops dispatching (dispatch ended early only because the count reached
`maxFailed + 1`, and the threshold was respected before every dispatched
batch); but the run then proceeds to normalize and save the partial result —
the only abort-like outcome is the `exit(1)` when nothing at all was
embedded. -/
theorem C1_abort_behavior (oracle : Nat → EmbResult) (maxFailed n : Nat) :
    ((runDriver oracle maxFailed n).dispatched < n →
      (runDriver oracle maxFailed n).failed_batches = maxFailed + 1) ∧
    (∀ k, k < (runDriver oracle maxFailed n).dispatched → errCount oracle k ≤ maxFailed) ∧
    (driverOutcome oracle maxFailed n = RunOutcome.noEmbeddings ↔
      (runDriver oracle maxFailed n).embeddings_list = []) ∧
    ((runDriver oracle maxFailed n).embeddings_list ≠ [] →
      driverOutcome oracle maxFailed n =
        RunOutcome.completed (runDriver oracle maxFailed n)) := by
  obtain ⟨hle, hst, hleg, hstop⟩ := runDriver_spec oracle maxFailed n
  refine ⟨?_, hleg, ?_, ?_⟩
  · intro hlt
    have hcnt := hstop hlt
    rw [show (runDriver oracle maxFailed n).failed_batches =
        errCount oracle (runDriver oracle maxFailed n).dispatched by rw [hst]]
    exact hcnt
  · by_cases hemb : (runDriver oracle maxFailed n).embeddings_list = []
    · simp [driverOutcome, hemb]
    · simp [driverOutcome, hemb]
  · intro hne
    simp [driverOutcome, hne]

/-- Counterexample to C1 as stated: batch 0 succeeds, every later batch
fails.  With the threshold 5, the count reaches 6 after batch 6, dispatch
stops (batch 7 is never dispatched: 7 < 8), yet the run's outcome is the
saved partial result of 1 vector with 6 failures — not an abort outcome. -/
theorem C1_counterexample :
    runDriver (fun i => if i = 0 then EmbResult.ok [[1]] else EmbResult.error "API error")
        5 8 = ⟨[[1]], 6, 7⟩ ∧
    driverOutcome (fun i => if i = 0 then EmbResult.ok [[1]] else EmbResult.error "API error")
        5 8 = RunOutcome.completed ⟨[[1]], 6, 7⟩ ∧
    RunOutcome.completed (⟨[[1]], 6, 7⟩ : LoopState) ≠ RunOutcome.noEmbeddings := by
  refine ⟨by decide, by decide, by decide⟩

/-- Claim C2 (amended): the loop performs no dimensionality check at all —
its control flow (how many batches are dispatched, how many failures are
counted) depends only on which batches fail, never on the returned vectors
or their dimensions. -/
theorem C2_dimension_blind (oracle1 oracle2 : Nat → EmbResult) (maxFailed n : Nat)
    (h : ∀ i, batchFails (oracle1 i) = batchFails (oracle2 i)) :
    (runDriver oracle1 maxFailed n).dispatched =
      (runDriver oracle2 maxFailed n).dispatched ∧
    (runDriver oracle1 maxFailed n).failed_batches =
      (runDriver oracle2 maxFailed n).failed_batches := by
  suffices H : ∀ (is : List Nat) (emb1 emb2 : List (List ℚ)) (failed disp : Nat),
      (batchLoop oracle1 maxFailed is emb1 failed disp).dispatched =
        (batchLoop oracle2 maxFailed is emb2 failed disp).dispatched ∧
      (batchLoop oracle1 maxFailed is emb1 failed disp).failed_batches =
        (batchLoop oracle2 maxFailed is emb2 failed disp).failed_batches from
    H (List.range n) [] [] 0 0
  intro is
  induction is with
  | nil => intro emb1 emb2 failed disp; exact ⟨rfl, rfl⟩
  | cons i rest ih =>
    intro emb1 emb2 failed disp
    have hi := h i
    match h1 : oracle1 i, h2 : oracle2 i with
    | .ok e1, .ok e2 =>
      simp only [batchLoop, h1, h2]
      exact ih _ _ _ _
    | .ok e1, .error m2 =>
      rw [h1, h2] at hi
      simp [batchFails] at hi
    | .error m1, .ok e2 =>
      rw [h1, h2] at hi
      simp [batchFails] at hi
    | .error m1, .error m2 =>
      simp only [batchLoop, h1, h2]
      by_cases hbreak : failed + 1 > maxFailed
      · rw [if_pos hbreak, if_pos hbreak]
        exact ⟨rfl, rfl⟩
      · rw [if_neg hbreak, if_neg hbreak]
        exact ih _ _ _ _

/-- Witness for C2 (amended): two all-success oracles returning vectors of
different dimensionality produce identical control flow. -/
theorem C2_dimension_blind_witness :
    (runDriver (fun _ => EmbResult.ok [[1, 2, 3]]) 5 2).dispatched =
      (runDriver (fun _ => EmbResult.ok [[9]]) 5 2).dispatched ∧
    (runDriver (fun _ => EmbResult.ok [[1, 2, 3]]) 5 2).failed_batches =
      (runDriver (fun _ => EmbResult.ok [[9]]) 5 2).failed_batches :=
  C2_dimension_blind _ _ 5 2 (fun _ => rfl)

/-- Counterexample to C2 as stated: batch 0 establishes dimension 3, batch 1
returns a 2-dimensional vector, yet batch 2 is still dispatched (all 3
dispatched), no failure is recorded, and the run completes with the ragged
collection — there is no immediate DimensionMismatch abort. -/
theorem C2_counterexample :
    runDriver
        (fun i => if i = 0 then EmbResult.ok [[1, 2, 3]]
          else if i = 1 then EmbResult.ok [[4, 5]] else EmbResult.ok [[6, 7, 8]]) 5 3 =
      ⟨[[1, 2, 3], [4, 5], [6, 7, 8]], 0, 3⟩ ∧
    driverOutcome
        (fun i => if i = 0 then EmbResult.ok [[1, 2, 3]]
          else if i = 1 then EmbResult.ok [[4, 5]] else EmbResult.ok [[6, 7, 8]]) 5 3 =
      RunOutcome.completed ⟨[[1, 2, 3], [4, 5], [6, 7, 8]], 0, 3⟩ ∧
    ([[4, 5]] : List (List ℚ)).all (fun e => e.length = 2) ∧
    ([[1, 2, 3]] : List (List ℚ)).all (fun e => e.length = 3) := by
  refine ⟨by decide, by decide, by decide, by decide⟩

/-- Claim C3 (amended): the collected output is the concatenation, in batch
order, of the successful dispatched batches' vectors (compacted — not
aligned to original record positions once a batch has failed), and failed
batches contribute only to a counter; no per-batch failure record with an
index range exists in the final state. -/
theorem C3_assembly (oracle : Nat → EmbResult) (maxFailed n : Nat) :
    (runDriver oracle maxFailed n).embeddings_list =
      okVectors oracle (runDriver oracle maxFailed n).dispatched ∧
    (runDriver oracle maxFailed n).failed_batches =
      errCount oracle (runDriver oracle maxFailed n).dispatched := by
  obtain ⟨hle, hst, hleg, hstop⟩ := runDriver_spec oracle maxFailed n
  constructor
  · rw [show (runDriver oracle maxFailed n).embeddings_list =
        okVectors oracle (runDriver oracle maxFailed n).dispatched by rw [hst]]
  · rw [show (runDriver oracle maxFailed n).failed_batches =
        errCount oracle (runDriver oracle maxFailed n).dispatched by rw [hst]]

/-- Counterexample to C3 as stated: two one-record batches; batch 0 fails and
batch 1 succeeds with the vector [7].  The final state holds one vector (at
output position 0, though it belongs to record 1) and the bare counter 1 —
record 0's index is covered by no vector and no failure record, so the
claimed exact partition of indices does not hold on the code's output. -/
theorem C3_counterexample :
    runDriver (fun i => if i = 0 then EmbResult.error "API error" else EmbResult.ok [[7]])
        5 2 = ⟨[[7]], 1, 2⟩ ∧
    (runDriver (fun i => if i = 0 then EmbResult.error "API error" else EmbResult.ok [[7]])
        5 2).embeddings_list.length = 1 ∧
    driverOutcome (fun i => if i = 0 then EmbResult.error "API error" else EmbResult.ok [[7]])
        5 2 = RunOutcome.completed ⟨[[7]], 1, 2⟩ := by
  refine ⟨by decide, by decide, by decide⟩

/-- Claim C5 (amended): the normalizer divides by the row's norm whenever the
norm is nonzero — including nonzero norms at or below ε — and divides by
ε = 1e-10 exactly when the norm is zero (equivalently, when the row is all
zeros); the divisor is never the literal zero. -/
theorem C5_normalizer_policy (v : List ℚ) (n : ℚ) (hn : IsL2Norm v n) :
    (n ≠ 0 → l2normalizeRow v n = v.map fun x => x / n) ∧
    (n = 0 → l2normalizeRow v n = v.map fun x => x / eps) ∧
    normDivisor n ≠ 0 ∧
    (n = 0 ↔ ∀ x ∈ v, x = 0) := by
  obtain ⟨hn0, hnsq⟩ := hn
  refine ⟨?_, ?_, ?_, ?_⟩
  · intro h
    unfold l2normalizeRow normDivisor
    rw [if_neg h]
  · intro h
    unfold l2normalizeRow normDivisor
    rw [if_pos h]
  · unfold normDivisor
    split
    · unfold eps
      norm_num
    · assumption
  · constructor
    · intro h
      rw [h] at hnsq
      simp only [zero_mul] at hnsq
      exact (sumSq_eq_zero_iff v).mp hnsq.symm
    · intro h
      have hs : sumSq v = 0 := (sumSq_eq_zero_iff v).mpr h
      rw [hs] at hnsq
      exact mul_self_eq_zero.mp hnsq

/-- Witness for C5 (amended): the row [3, 4] with norm 5. -/
theorem C5_normalizer_policy_witness :
    IsL2Norm [3, 4] 5 ∧
    (((5 : ℚ) ≠ 0 → l2normalizeRow [3, 4] 5 = [3, 4].map fun x => x / 5) ∧
     ((5 : ℚ) = 0 → l2normalizeRow [3, 4] 5 = [3, 4].map fun x => x / eps) ∧
     normDivisor 5 ≠ 0 ∧
     ((5 : ℚ) = 0 ↔ ∀ x ∈ ([3, 4] : List ℚ), x = 0)) :=
  ⟨⟨by norm_num, by norm_num [sumSq]⟩,
   C5_normalizer_policy [3, 4] 5 ⟨by norm_num, by norm_num [sumSq]⟩⟩

/-- Counterexample to C5 as stated: the one-component row [10⁻¹²] has norm
10⁻¹² — nonzero but at most ε = 10⁻¹⁰.  The claim demands division by ε,
giving [10⁻²]; the code divides by the norm itself, giving [1]. -/
theorem C5_counterexample :
    IsL2Norm [1 / 10 ^ 12] (1 / 10 ^ 12) ∧
    (0 : ℚ) < 1 / 10 ^ 12 ∧
    (1 : ℚ) / 10 ^ 12 ≤ eps ∧
    l2normalizeRow [1 / 10 ^ 12] (1 / 10 ^ 12) = [1] ∧
    l2normalizeRowSpec [1 / 10 ^ 12] (1 / 10 ^ 12) = [1 / 100] ∧
    l2normalizeRow [1 / 10 ^ 12] (1 / 10 ^ 12) ≠
      l2normalizeRowSpec [1 / 10 ^ 12] (1 / 10 ^ 12) := by
  refine ⟨⟨by norm_num, by norm_num [sumSq]⟩, by norm_num, by norm_num [eps], ?_, ?_, ?_⟩
  · norm_num [l2normalizeRow, normDivisor, eps]
  · norm_num [l2normalizeRowSpec, eps]
  · norm_num [l2normalizeRow, l2normalizeRowSpec, normDivisor, eps]

/-- Claim C10: normalizing an all-zero row divides by ε (never by the
literal zero) and yields exactly the zero row of the same length — finite,
with no undefined component. -/
theorem C10_zero_vector_safe (v : List ℚ) (n : ℚ) (hn : IsL2Norm v n)
    (hz : ∀ x ∈ v, x = 0) :
    l2normalizeRow v n = v.map (fun _ => (0 : ℚ)) ∧
    (l2normalizeRow v n).length = v.length ∧
    normDivisor n ≠ 0 := by
  obtain ⟨hn0, hnsq⟩ := hn
  have hs : sumSq v = 0 := (sumSq_eq_zero_iff v).mpr hz
  have hn' : n = 0 := by
    rw [hs] at hnsq
    exact mul_self_eq_zero.mp hnsq
  subst hn'
  refine ⟨?_, by simp [l2normalizeRow], ?_⟩
  · unfold l2normalizeRow
    apply List.map_congr_left
    intro x hx
    rw [hz x hx]
    simp
  · unfold normDivisor
    rw [if_pos rfl]
    unfold eps
    norm_num

/-- Witness for C10: the all-zero row [0, 0, 0] of norm 0 (Scenario C). -/
theorem C10_zero_vector_safe_witness :
    l2normalizeRow [0, 0, 0] 0 = ([0, 0, 0] : List ℚ).map (fun _ => (0 : ℚ)) ∧
    (l2normalizeRow [0, 0, 0] 0).length = ([0, 0, 0] : List ℚ).length ∧
    normDivisor 0 ≠ 0 :=
  C10_zero_vector_safe [0, 0, 0] 0 ⟨le_refl 0, by norm_num [sumSq]⟩ (by decide)

end EmbedPipeline
